import Mathlib

/-
Verification of the CSV-splitting tool (`split_csv.py`).

The program streams a CSV file line by line, derives a partition key per row
from a selected column (optionally reducing ISO-date-shaped values to a
year-month bucket), and fans the raw lines out into per-key output files,
opening the files lazily and closing them via a `with` block.

Python strings are modelled as `List Char` (ASCII-level; the regex class
`\d` is modelled as the ASCII digits, and `int()` parsing is modelled as an
optional sign followed by decimal digits, without Python's additional
acceptance of surrounding whitespace, underscores and non-ASCII digits,
none of which the claims exercise).  The CSV dialect parser (`csv.reader`)
is third-party library code, so the row parser is a parameter of the model
(`Proc.parse`); `parseComma` below is the concrete comma-dialect instance
used for concrete runs.  OS-level I/O failures are modelled by an oracle
`Nat → Bool` giving the outcome of the n-th open/write call.
-/

/-- A Python string: a list of characters. -/
abbrev Ln := List Char

/-- Character list of a Lean string literal (for concrete inputs). -/
def strL (s : String) : Ln := s.data

/-- ASCII decimal digit, the model of the regex class `\d`. -/
def isDig (c : Char) : Bool :=
  c == '0' || c == '1' || c == '2' || c == '3' || c == '4' ||
  c == '5' || c == '6' || c == '7' || c == '8' || c == '9'

/-- Numeric value of a digit character. -/
def digitVal (c : Char) : Nat := c.toNat - 48

/-- The month alternative `(0\d|1[012])` of `_iso_date_re` (line 18). -/
def monthShape (m1 m2 : Char) : Bool :=
  (m1 == '0' && isDig m2) || (m1 == '1' && (m2 == '0' || m2 == '1' || m2 == '2'))

/-- The day alternative `([012]\d|3[01])` of `_iso_date_re` (line 18). -/
def dayShape (d1 d2 : Char) : Bool :=
  ((d1 == '0' || d1 == '1' || d1 == '2') && isDig d2) ||
    (d1 == '3' && (d2 == '0' || d2 == '1'))

/-- Spec-side month condition: two digits whose value is at most 12. -/
def monthLe12 (m1 m2 : Char) : Bool :=
  isDig m1 && isDig m2 && decide (10 * digitVal m1 + digitVal m2 ≤ 12)

/-- Spec-side day condition: two digits whose value is at most 31. -/
def dayLe31 (d1 d2 : Char) : Bool :=
  isDig d1 && isDig d2 && decide (10 * digitVal d1 + digitVal d2 ≤ 31)

/-- `_iso_date_re.match(field)` followed by `'-'.join((year, month))`:
the regex `(?P<year>\d{4})-(?P<month>0\d|1[012])-(?P<day>[012]\d|3[01])`
matched as a prefix of the field (`re.match` anchors only at the start);
on a match the year-month key is returned. -/
def isoKeyOf (cs : Ln) : Option Ln :=
  match cs with
  | y1 :: y2 :: y3 :: y4 :: s1 :: m1 :: m2 :: s2 :: d1 :: d2 :: _ =>
    if s1 == '-' && s2 == '-' &&
        isDig y1 && isDig y2 && isDig y3 && isDig y4 &&
        monthShape m1 m2 && dayShape d1 d2
    then some (y1 :: y2 :: y3 :: y4 :: '-' :: m1 :: m2 :: [])
    else none
  | _ => none

/-- Key derivation of `_EntryProcessor.process` (lines 85-92): when date
splitting is on and the field starts with an ISO-date shape, the key is the
year-month bucket, otherwise the field itself. -/
def deriveKey (dateSplit : Bool) (field : Ln) : Ln :=
  if dateSplit then
    match isoKeyOf field with
    | some k => k
    | none => field
  else field

/-- Key derivation as the (amended) spec words it: the date shape is four
digits, a dash, a two-digit month of numeric value at most 12, a dash, and
a two-digit day of numeric value at most 31, checked by digit shape only. -/
def isoSpecKey (cs : Ln) : Ln :=
  match cs with
  | y1 :: y2 :: y3 :: y4 :: s1 :: m1 :: m2 :: s2 :: d1 :: d2 :: _ =>
    if s1 == '-' && s2 == '-' &&
        isDig y1 && isDig y2 && isDig y3 && isDig y4 &&
        monthLe12 m1 m2 && dayLe31 d1 d2
    then y1 :: y2 :: y3 :: y4 :: '-' :: m1 :: m2 :: []
    else cs
  | _ => cs

/-- Scanner states of the `str.format` engine: plain text, just after an
opening brace, just after a closing brace. -/
inductive FmtMode where
  | norm
  | sawL
  | sawR
deriving DecidableEq

/-- Model of Python `str.format` with a single positional argument, the
only uses the program makes of it (lines 45 and 95): `\x7b\x7d` substitutes
the argument (once; a second field is an arity error), doubled braces are
literal braces, and any other use of a brace is an error.  A replacement
field with a name, index or format spec is also mapped to the error case:
in both templates the program builds, such a field would be accompanied by
a second, automatic field, which Python rejects for a one-argument call. -/
def fmtScan (arg : Ln) : FmtMode → Bool → Ln → Option Ln
  | .norm, _, [] => some []
  | .sawL, _, [] => none
  | .sawR, _, [] => none
  | .norm, used, c :: t =>
    if c = '{' then fmtScan arg .sawL used t
    else if c = '}' then fmtScan arg .sawR used t
    else (fmtScan arg .norm used t).map (fun r => c :: r)
  | .sawL, used, c :: t =>
    if c = '{' then (fmtScan arg .norm used t).map (fun r => '{' :: r)
    else if c = '}' then
      if used then none
      else (fmtScan arg .norm true t).map (fun r => arg ++ r)
    else none
  | .sawR, used, c :: t =>
    if c = '}' then (fmtScan arg .norm used t).map (fun r => '}' :: r)
    else none

/-- `tmpl.format(arg)` with one positional argument. -/
def pyFormat (tmpl arg : Ln) : Option Ln := fmtScan arg FmtMode.norm false tmpl

/-- Line 45: `self._outfile_template = '{}{{}}.csv'.format(prefix)`. -/
def outfileTemplate (pfx : Ln) : Option Ln :=
  pyFormat ('{' :: '}' :: '{' :: '{' :: '}' :: '}' :: '.' :: 'c' :: 's' :: 'v' :: []) pfx

/-- Line 95: `output_file_name = self._outfile_template.format(file_key)`. -/
def outputFileName (pfx key : Ln) : Option Ln :=
  (outfileTemplate pfx).bind (fun t => pyFormat t key)

/-- Python list indexing `xs[i]`: negative indices count from the end,
out-of-range indices raise `IndexError` (here: `none`). -/
def pyGet {α : Type} (xs : List α) (i : Int) : Option α :=
  let j : Int := if i < 0 then (xs.length : Int) + i else i
  if j < 0 then none else xs[j.toNat]?

/-- Value of a nonempty digit string. -/
def decDigitsAux : Ln → Nat → Option Nat
  | [], acc => some acc
  | c :: t, acc => if isDig c then decDigitsAux t (acc * 10 + digitVal c) else none

/-- Value of a digit string (`none` when empty or non-digit). -/
def decDigits : Ln → Option Nat
  | [] => none
  | l => decDigitsAux l 0

/-- Model of Python `int(s)`: an optional sign followed by decimal digits.
Note that negative values are accepted. -/
def pyInt (s : Ln) : Option Int :=
  match s with
  | '-' :: t => (decDigits t).map (fun n => -(n : Int))
  | '+' :: t => (decDigits t).map (fun n => (n : Int))
  | t => (decDigits t).map (fun n => (n : Int))

/-- `header_fields.index(column_id)` (line 59): index of the first equal
field, `none` for Python's `ValueError`. -/
def listIndexOf (fields : List Ln) (x : Ln) : Option Nat :=
  match fields with
  | [] => none
  | f :: t => if f = x then some 0 else (listIndexOf t x).map (fun n => n + 1)

/-- The `_EntryProcessor` configuration after `__init__`: the row parser
(`csv.reader` with the active dialect), the output-file prefix, the stored
header line, the resolved column index (`none` when `__init__` never
assigned `self._column_index`, which happens exactly when `header` is
`None`), and the date-split flag. -/
structure Proc where
  parse : Ln → List Ln
  pfx : Ln
  header : Option Ln
  colIdx : Option Int
  dateSplit : Bool

/-- The Python exceptions the modelled code can raise while processing. -/
inductive PyErr where
  | attributeError
  | indexError
  | formatError
  | ioError
  | unboundLocalError
deriving DecidableEq

/-- The header lines written to a fresh output file (lines 104-105). -/
def hdrList : Option Ln → List Ln
  | some h => [h]
  | none => []

/-- The partition key `process` derives for an entry. -/
def entryKey (p : Proc) (e : Ln) : Option Ln :=
  match p.colIdx with
  | none => none
  | some i =>
    match pyGet (p.parse e) i with
    | none => none
    | some f => some (deriveKey p.dateSplit f)

/-- The output file name `process` derives for an entry. -/
def entryName (p : Proc) (e : Ln) : Option Ln :=
  (entryKey p e).bind (fun k => outputFileName p.pfx k)

/-- The state of `self._out_files`: file name to written lines, in
insertion order (Python dictionaries preserve insertion order). -/
abbrev St := List (Ln × List Ln)

/-- Dictionary lookup `self._out_files[name]` (line 99). -/
def assocGet : St → Ln → Option (List Ln)
  | [], _ => none
  | (n, c) :: t, name => if n = name then some c else assocGet t name

/-- Append a line to the file registered under `name`. -/
def appendTo : St → Ln → Ln → St
  | [], _, _ => []
  | (n, c) :: t, name, e =>
    if n = name then (n, c ++ [e]) :: t else (n, c) :: appendTo t name e

/-- Lines 96-109 without I/O failures: on a hit the entry is appended by
the `finally` block; on `KeyError` the file is opened, the header (if any)
is written, the file is registered, and the `finally` block appends the
entry. -/
def writeTo (header : Option Ln) (st : St) (name : Ln) (e : Ln) : St :=
  match assocGet st name with
  | some _ => appendTo st name e
  | none => st ++ [(name, hdrList header ++ [e])]

/-- `_EntryProcessor.process` (lines 81-109), failure-free-I/O model:
parse the entry, select the column (`AttributeError` when `__init__` never
set `self._column_index`, `IndexError` when the row is too short), derive
the key, format the file name, and write. -/
def processEntry (p : Proc) (st : St) (e : Ln) : Except PyErr St :=
  match p.colIdx with
  | none => .error .attributeError
  | some i =>
    match pyGet (p.parse e) i with
    | none => .error .indexError
    | some field =>
      match outputFileName p.pfx (deriveKey p.dateSplit field) with
      | none => .error .formatError
      | some name => .ok (writeTo p.header st name e)

/-- The main loop (lines 155-156): process entries in order, stopping at
the first exception. -/
def runEntries (p : Proc) : List Ln → St → St × Option PyErr
  | [], st => (st, none)
  | e :: es, st =>
    match processEntry p st e with
    | .ok st1 => runEntries p es st1
    | .error err => (st, some err)

/-- Outcome of `_EntryProcessor.__init__` (lines 53-68). -/
inductive InitResult where
  | ok (colIdx : Option Int)
  | configError (columnId : Ln)
deriving DecidableEq

/-- Column resolution in `__init__` (lines 53-68): with a header, look the
specifier up among the header fields, falling back to `int(column_id)`;
the configuration error carries the unmatched specifier (line 66).  With
no header the branch is skipped entirely and `self._column_index` is never
assigned. -/
def resolveColumn (parse : Ln → List Ln) (header : Option Ln) (columnId : Ln) :
    InitResult :=
  match header with
  | none => InitResult.ok none
  | some h =>
    match listIndexOf (parse h) columnId with
    | some i => InitResult.ok (some (i : Int))
    | none =>
      match pyInt columnId with
      | some n => InitResult.ok (some n)
      | none => InitResult.configError columnId

/-- Lines 132-150: the first physical line is read; if the sniffer calls
it a header it is stored and not re-read, otherwise the file position is
reset to 0 so the iteration re-emits the first line as data. -/
def headerData (hasHeader : Bool) (lines : List Ln) : Option Ln × List Ln :=
  match lines with
  | [] => (none, [])
  | first :: rest =>
    if hasHeader then (some first, rest) else (none, first :: rest)

/-- Outcome of a whole run of the main block. -/
inductive RunOutcome where
  | configError (columnId : Ln)
  | ran (files : St) (err : Option PyErr)
deriving DecidableEq

/-- The main block (lines 132-156), failure-free-I/O model: split off the
header, resolve the column once, then stream the data lines.  A
configuration error aborts before any output file exists. -/
def runSplit (parse : Ln → List Ln) (pfx : Ln) (hasHeader : Bool)
    (lines : List Ln) (columnId : Ln) (dateSplit : Bool) : RunOutcome :=
  let hd := headerData hasHeader lines
  match resolveColumn parse hd.1 columnId with
  | InitResult.configError c => RunOutcome.configError c
  | InitResult.ok ci =>
    let p : Proc := ⟨parse, pfx, hd.1, ci, dateSplit⟩
    let r := runEntries p hd.2 []
    RunOutcome.ran r.1 r.2

/-- Remove one trailing newline, as `csv.reader` does before splitting. -/
def stripNl : Ln → Ln
  | [] => []
  | [c] => if c = '\n' then [] else [c]
  | c :: t => c :: stripNl t

/-- Split on a delimiter (quote-free fields). -/
def splitFields (d : Char) : Ln → List Ln
  | [] => [[]]
  | c :: t =>
    match splitFields d t with
    | [] => [[]]
    | f :: fs => if c = d then [] :: f :: fs else (c :: f) :: fs

/-- Concrete comma-dialect instance of `csv.reader` for quote-free,
nonempty rows, used for the concrete runs below (the claims hold for every
`parse`; quoting and blank-line handling of the library reader are not
needed by any concrete run). -/
def parseComma (l : Ln) : List Ln := splitFields ',' (stripNl l)

/-- Python `bool(s)` on a string: false exactly for the empty string.
This is what `argparse` applies to the value of `--date-split`
(line 122: `type=bool`). -/
def pyBool (s : Ln) : Bool := !s.isEmpty

/-- The `--date-split` argument: `default=True` when absent, otherwise
`bool(value)` (line 122). -/
def argDateSplit : Option Ln → Bool
  | none => true
  | some s => pyBool s

/-- An OS-level file handle created by `open`: its name, the lines its
`write` calls received, and whether `process` got as far as storing it in
`self._out_files` (only stored handles are closed by `__exit__`,
lines 75-79). -/
structure OpenFile where
  name : Ln
  content : List Ln
  registered : Bool
deriving DecidableEq

/-- State of a run under the I/O-failure oracle: a counter of open/write
calls made so far (the oracle's index) and every handle opened so far. -/
structure EffState where
  ops : Nat
  files : List OpenFile
deriving DecidableEq

/-- Names in `self._out_files` — what `__exit__` closes. -/
def regNames (st : EffState) : List Ln :=
  (st.files.filter (fun f => f.registered)).map (fun f => f.name)

/-- Names of every file handle opened so far. -/
def openNames (st : EffState) : List Ln :=
  st.files.map (fun f => f.name)

/-- Record a successful `write` on the handle named `name`. -/
def appendEff (fs : List OpenFile) (name : Ln) (x : Ln) : List OpenFile :=
  match fs with
  | [] => []
  | f :: t =>
    if f.name = name then { f with content := f.content ++ [x] } :: t
    else f :: appendEff t name x

/-- Record `self._out_files[output_file_name] = out_file` (line 107). -/
def registerEff (fs : List OpenFile) (name : Ln) : List OpenFile :=
  match fs with
  | [] => []
  | f :: t =>
    if f.name = name then { f with registered := true } :: t
    else f :: registerEff t name

/-- `_EntryProcessor.process` (lines 81-109) with the I/O oracle: `orc n`
is the outcome of the n-th open/write call.  On a dictionary hit only the
`finally` write runs.  On `KeyError`: if `open` fails, the `finally`
block's `out_file.write(entry)` finds `out_file` unbound, so the error that
propagates is an `UnboundLocalError` and the dictionary is unchanged.  If
`open` succeeds but the header write fails, the `finally` write still runs
on the (bound) handle and the `IOError` propagates; the handle was never
registered, so `__exit__` will not close it.  Otherwise the handle is
registered after the header write and the `finally` block appends the
entry. -/
def processEff (orc : Nat → Bool) (p : Proc) (st : EffState) (e : Ln) :
    EffState × Option PyErr :=
  match p.colIdx with
  | none => (st, some PyErr.attributeError)
  | some i =>
    match pyGet (p.parse e) i with
    | none => (st, some PyErr.indexError)
    | some field =>
      match outputFileName p.pfx (deriveKey p.dateSplit field) with
      | none => (st, some PyErr.formatError)
      | some name =>
        if name ∈ regNames st then
          if orc st.ops then
            ({ ops := st.ops + 1, files := appendEff st.files name e }, none)
          else ({ st with ops := st.ops + 1 }, some PyErr.ioError)
        else
          if orc st.ops then
            let st1 : EffState :=
              { ops := st.ops + 1, files := st.files ++ [⟨name, [], false⟩] }
            match p.header with
            | some h =>
              if orc st1.ops then
                let st2 : EffState :=
                  { ops := st1.ops + 1,
                    files := registerEff (appendEff st1.files name h) name }
                if orc st2.ops then
                  ({ ops := st2.ops + 1, files := appendEff st2.files name e }, none)
                else ({ st2 with ops := st2.ops + 1 }, some PyErr.ioError)
              else
                let st2 : EffState := { st1 with ops := st1.ops + 1 }
                if orc st2.ops then
                  ({ ops := st2.ops + 1, files := appendEff st2.files name e },
                    some PyErr.ioError)
                else ({ st2 with ops := st2.ops + 1 }, some PyErr.ioError)
            | none =>
              let st2 : EffState := { st1 with files := registerEff st1.files name }
              if orc st2.ops then
                ({ ops := st2.ops + 1, files := appendEff st2.files name e }, none)
              else ({ st2 with ops := st2.ops + 1 }, some PyErr.ioError)
          else
            ({ st with ops := st.ops + 1 }, some PyErr.unboundLocalError)

/-- The main loop under the I/O oracle: stop at the first exception,
returning the handle state as it is then (the `with` statements then close
exactly the registered handles). -/
def runEff (orc : Nat → Bool) (p : Proc) : List Ln → EffState → EffState × Option PyErr
  | [], st => (st, none)
  | e :: es, st =>
    match processEff orc p st e with
    | (st1, none) => runEff orc p es st1
    | (st1, some err) => (st1, some err)

/-- First-occurrence deduplication relative to a seen set. -/
def dfAux (seen : List Ln) : List Ln → List Ln
  | [] => []
  | n :: t => if n ∈ seen then dfAux seen t else n :: dfAux (n :: seen) t

/-- Specification of the final dictionary after a successful run starting
from `st0`: every pre-existing file gains, in order, the entries routed to
its name, and after them come the new names in order of first appearance,
each holding the header (if any) followed by its entries in order. -/
def specMerge (p : Proc) (st0 : St) (es : List Ln) : St :=
  st0.map (fun fc => (fc.1, fc.2 ++ es.filter (fun e => entryName p e == some fc.1)))
    ++ (dfAux (st0.map Prod.fst) (es.filterMap (entryName p))).map
        (fun f => (f, hdrList p.header ++ es.filter (fun e => entryName p e == some f)))

/-- The oracle for which every open/write succeeds. -/
def orcOk : Nat → Bool := fun _ => true

/-- The oracle failing exactly the second I/O call of a run. -/
def orcSnd : Nat → Bool := fun n => !(n == 1)

/-- The oracle failing every I/O call. -/
def orcNever : Nat → Bool := fun _ => false

/-- A concrete processor: comma dialect, prefix `p`, header line `a,b`,
column index 0, date splitting on. -/
def procH : Proc := ⟨parseComma, strL "p", some (strL "a,b\n"), some 0, true⟩

/-- A digit character is one of the ten ASCII digits. -/
theorem isDig_cases (c : Char) (h : isDig c = true) :
    c = '0' ∨ c = '1' ∨ c = '2' ∨ c = '3' ∨ c = '4' ∨
      c = '5' ∨ c = '6' ∨ c = '7' ∨ c = '8' ∨ c = '9' := by
  simp [isDig] at h
  tauto

/-- A non-digit differs from every digit. -/
theorem beq_false_of_not_dig (c d : Char) (h : isDig c = false)
    (hd : isDig d = true) : (c == d) = false := by
  cases hc : c == d
  · rfl
  · rw [beq_iff_eq] at hc
    subst hc
    rw [h] at hd
    simp at hd

/-- The regex month alternative is exactly "two digits with value at most
12". -/
theorem monthShape_eq (m1 m2 : Char) : monthShape m1 m2 = monthLe12 m1 m2 := by
  cases h1 : isDig m1
  · have a0 := beq_false_of_not_dig m1 '0' h1 (by decide)
    have a1 := beq_false_of_not_dig m1 '1' h1 (by decide)
    simp [monthShape, monthLe12, h1, a0, a1]
  · cases h2 : isDig m2
    · have b0 := beq_false_of_not_dig m2 '0' h2 (by decide)
      have b1 := beq_false_of_not_dig m2 '1' h2 (by decide)
      have b2 := beq_false_of_not_dig m2 '2' h2 (by decide)
      simp [monthShape, monthLe12, h2, b0, b1, b2]
    · rcases isDig_cases m1 h1 with rfl | rfl | rfl | rfl | rfl | rfl | rfl | rfl | rfl | rfl <;>
        rcases isDig_cases m2 h2 with rfl | rfl | rfl | rfl | rfl | rfl | rfl | rfl | rfl | rfl <;>
        decide

/-- The regex day alternative is exactly "two digits with value at most
31". -/
theorem dayShape_eq (d1 d2 : Char) : dayShape d1 d2 = dayLe31 d1 d2 := by
  cases h1 : isDig d1
  · have a0 := beq_false_of_not_dig d1 '0' h1 (by decide)
    have a1 := beq_false_of_not_dig d1 '1' h1 (by decide)
    have a2 := beq_false_of_not_dig d1 '2' h1 (by decide)
    have a3 := beq_false_of_not_dig d1 '3' h1 (by decide)
    simp [dayShape, dayLe31, h1, a0, a1, a2, a3]
  · cases h2 : isDig d2
    · have b0 := beq_false_of_not_dig d2 '0' h2 (by decide)
      have b1 := beq_false_of_not_dig d2 '1' h2 (by decide)
      simp [dayShape, dayLe31, h2, b0, b1]
    · rcases isDig_cases d1 h1 with rfl | rfl | rfl | rfl | rfl | rfl | rfl | rfl | rfl | rfl <;>
        rcases isDig_cases d2 h2 with rfl | rfl | rfl | rfl | rfl | rfl | rfl | rfl | rfl | rfl <;>
        decide

/-- With the argument already consumed, the scanner ignores the argument. -/
theorem fmtScan_true_irrel (t : Ln) (a b : Ln) :
    ∀ m, fmtScan a m true t = fmtScan b m true t := by
  induction t with
  | nil => intro m; cases m <;> rfl
  | cons c t ih =>
    intro m
    cases m <;> simp only [fmtScan] <;>
      (by_cases h1 : c = '{' <;> by_cases h2 : c = '}' <;> simp [h1, h2, ih])

/-- With the argument already consumed, a template containing the chunk
`\x7b\x7d.` cannot scan successfully: the substitution field is either hit
(arity error) or torn apart by brace pairing, which then fails on the
dot. -/
theorem fmtScan_true_subst_none (a s : Ln) :
    ∀ (xs : Ln) (m : FmtMode),
      fmtScan a m true (xs ++ '{' :: '}' :: '.' :: s) = none := by
  intro xs
  induction xs with
  | nil => intro m; cases m <;> rfl
  | cons c xs ih =>
    intro m
    cases m <;> simp only [List.cons_append, fmtScan] <;>
      (by_cases h1 : c = '{' <;> by_cases h2 : c = '}' <;> simp [h1, h2, ih])

/-- A successful scan of a template on which the argument-consumed scan
fails must substitute the argument exactly once: the result decomposes as
`A ++ arg ++ B` with `A` and `B` independent of the argument. -/
theorem fmtScan_shape (t : Ln) :
    ∀ (m : FmtMode) (a r : Ln),
      fmtScan a m false t = some r → fmtScan a m true t = none →
      ∃ A B, r = A ++ a ++ B ∧ ∀ b, fmtScan b m false t = some (A ++ b ++ B) := by
  induction t with
  | nil =>
    intro m a r h1 h2
    cases m <;> simp [fmtScan] at h1 h2
  | cons c t ih =>
    intro m a r h1 h2
    cases m
    · by_cases hc1 : c = '{'
      · subst hc1
        simp only [fmtScan, if_pos rfl] at h1 h2
        obtain ⟨A, B, hr, hall⟩ := ih .sawL a r h1 h2
        exact ⟨A, B, hr, fun b => by simp only [fmtScan, if_pos rfl]; exact hall b⟩
      · by_cases hc2 : c = '}'
        · subst hc2
          simp only [fmtScan, if_neg (by decide : ¬('}' : Char) = '{'),
            if_pos rfl] at h1 h2
          obtain ⟨A, B, hr, hall⟩ := ih .sawR a r h1 h2
          exact ⟨A, B, hr, fun b => by
            simp only [fmtScan, if_neg (by decide : ¬('}' : Char) = '{'),
              if_pos rfl]; exact hall b⟩
        · simp only [fmtScan, if_neg hc1, if_neg hc2] at h1 h2
          obtain ⟨r1, hscan, hr⟩ := Option.map_eq_some'.mp h1
          have h2' : fmtScan a .norm true t = none := by
            rcases he : fmtScan a .norm true t with _ | v
            · rfl
            · rw [he] at h2; simp at h2
          obtain ⟨A, B, hr1, hall⟩ := ih .norm a r1 hscan h2'
          refine ⟨c :: A, B, by simp [← hr, hr1], fun b => ?_⟩
          simp [fmtScan, if_neg hc1, if_neg hc2, hall b]
    · by_cases hc1 : c = '{'
      · subst hc1
        simp only [fmtScan, if_pos rfl] at h1 h2
        obtain ⟨r1, hscan, hr⟩ := Option.map_eq_some'.mp h1
        have h2' : fmtScan a .norm true t = none := by
          rcases he : fmtScan a .norm true t with _ | v
          · rfl
          · rw [he] at h2; simp at h2
        obtain ⟨A, B, hr1, hall⟩ := ih .norm a r1 hscan h2'
        refine ⟨'{' :: A, B, by simp [← hr, hr1], fun b => ?_⟩
        simp [fmtScan, if_pos rfl, hall b]
      · by_cases hc2 : c = '}'
        · subst hc2
          simp only [fmtScan, if_neg (by decide : ¬('}' : Char) = '{'), if_pos rfl,
            Bool.false_eq_true, if_false] at h1
          obtain ⟨r1, hscan, hr⟩ := Option.map_eq_some'.mp h1
          refine ⟨[], r1, by simp [← hr], fun b => ?_⟩
          have := fmtScan_true_irrel t b a .norm
          simp [fmtScan, if_neg (by decide : ¬('}' : Char) = '{'), this, hscan, ← hr]
        · simp [fmtScan, if_neg hc1, if_neg hc2] at h1
    · by_cases hc : c = '}'
      · subst hc
        simp only [fmtScan, if_pos rfl] at h1 h2
        obtain ⟨r1, hscan, hr⟩ := Option.map_eq_some'.mp h1
        have h2' : fmtScan a .norm true t = none := by
          rcases he : fmtScan a .norm true t with _ | v
          · rfl
          · rw [he] at h2; simp at h2
        obtain ⟨A, B, hr1, hall⟩ := ih .norm a r1 hscan h2'
        refine ⟨'}' :: A, B, by simp [← hr, hr1], fun b => ?_⟩
        simp [fmtScan, if_pos rfl, hall b]
      · simp [fmtScan, if_neg hc] at h1

/-- Line 45 evaluated: for every prefix the first format pass succeeds and
the template is the prefix (inserted verbatim, as a format argument)
followed by a substitution field and `.csv` — the doubled braces of the
source template denote literal braces. -/
theorem outfileTemplate_eq (pfx : Ln) :
    outfileTemplate pfx = some (pfx ++ '{' :: '}' :: '.' :: 'c' :: 's' :: 'v' :: []) := rfl

/-- Distinct keys never collide on one output file name (for any fixed
prefix). -/
theorem outputFileName_inj (pfx k1 k2 r : Ln)
    (h1 : outputFileName pfx k1 = some r) (h2 : outputFileName pfx k2 = some r) :
    k1 = k2 := by
  simp only [outputFileName, outfileTemplate_eq, Option.some_bind, pyFormat] at h1 h2
  have hn : fmtScan k1 FmtMode.norm true
      (pfx ++ '{' :: '}' :: '.' :: 'c' :: 's' :: 'v' :: []) = none :=
    fmtScan_true_subst_none k1 ('c' :: 's' :: 'v' :: []) pfx .norm
  obtain ⟨A, B, hr, hall⟩ :=
    fmtScan_shape (pfx ++ '{' :: '}' :: '.' :: 'c' :: 's' :: 'v' :: []) .norm k1 r h1 hn
  have h2' := hall k2
  rw [h2] at h2'
  have hrk : A ++ k2 ++ B = r := (Option.some_inj.mp h2').symm
  have heq : A ++ k1 ++ B = A ++ k2 ++ B := (hrk.trans hr).symm
  exact List.append_cancel_left (List.append_cancel_right heq)

/-- For a prefix containing no brace characters the format engine is plain
concatenation. -/
theorem pyFormat_noBrace :
    ∀ pfx : Ln, (∀ c ∈ pfx, c ≠ '{' ∧ c ≠ '}') → ∀ k : Ln,
      pyFormat (pfx ++ '{' :: '}' :: '.' :: 'c' :: 's' :: 'v' :: []) k =
        some (pfx ++ k ++ ('.' :: 'c' :: 's' :: 'v' :: [])) := by
  intro pfx
  induction pfx with
  | nil => intro _ k; rfl
  | cons c t ih =>
    intro hb k
    have hc := hb c (by simp)
    have ht : ∀ x ∈ t, x ≠ '{' ∧ x ≠ '}' := fun x hx => hb x (by simp [hx])
    have ih' := ih ht k
    simp only [pyFormat] at ih'
    simp only [List.cons_append, pyFormat, fmtScan, if_neg hc.1, if_neg hc.2,
      List.append_eq]
    rw [ih']
    rfl

/-- For a brace-free prefix the output file name is exactly
`prefix ++ key ++ ".csv"`. -/
theorem outputFileName_noBrace (pfx k : Ln) (hb : ∀ c ∈ pfx, c ≠ '{' ∧ c ≠ '}') :
    outputFileName pfx k = some (pfx ++ k ++ ('.' :: 'c' :: 's' :: 'v' :: [])) := by
  simp only [outputFileName, outfileTemplate_eq, Option.some_bind]
  exact pyFormat_noBrace pfx hb k

/-- `assocGet` misses exactly the names outside the dictionary. -/
theorem assocGet_eq_none_iff (st : St) (n : Ln) :
    assocGet st n = none ↔ n ∉ st.map Prod.fst := by
  induction st with
  | nil => simp [assocGet]
  | cons fc t ih =>
    obtain ⟨f, c⟩ := fc
    simp only [assocGet, List.map_cons, List.mem_cons]
    by_cases h : f = n
    · subst h; simp
    · rw [if_neg h, ih]
      simp only [not_or]
      constructor
      · intro hm; exact ⟨fun hn => h hn.symm, hm⟩
      · intro hm; exact hm.2

/-- `appendTo` does not change the dictionary's key list. -/
theorem appendTo_keys (st : St) (n e : Ln) :
    (appendTo st n e).map Prod.fst = st.map Prod.fst := by
  induction st with
  | nil => rfl
  | cons fc t ih =>
    obtain ⟨f, c⟩ := fc
    by_cases h : f = n <;> simp [appendTo, h, ih]

/-- `dfAux` only looks at the membership of the seen set. -/
theorem dfAux_congr (l : List Ln) :
    ∀ s1 s2 : List Ln, (∀ x, x ∈ s1 ↔ x ∈ s2) → dfAux s1 l = dfAux s2 l := by
  induction l with
  | nil => intro _ _ _; rfl
  | cons n t ih =>
    intro s1 s2 h
    by_cases hn : n ∈ s1
    · simp [dfAux, hn, (h n).mp hn, ih s1 s2 h]
    · have hn2 : n ∉ s2 := fun hx => hn ((h n).mpr hx)
      simp only [dfAux, if_neg hn, if_neg hn2]
      rw [ih (n :: s1) (n :: s2) (fun x => by simp [h x])]

/-- Members of `dfAux seen l` come from `l` and avoid `seen`. -/
theorem dfAux_mem (l : List Ln) :
    ∀ (seen : List Ln) (x : Ln), x ∈ dfAux seen l → x ∈ l ∧ x ∉ seen := by
  induction l with
  | nil => intro seen x h; simp [dfAux] at h
  | cons n t ih =>
    intro seen x h
    by_cases hn : n ∈ seen
    · simp only [dfAux, if_pos hn] at h
      have := ih seen x h
      exact ⟨by simp [this.1], this.2⟩
    · simp only [dfAux, if_neg hn] at h
      rcases List.mem_cons.mp h with rfl | h
      · exact ⟨by simp, hn⟩
      · have := ih (n :: seen) x h
        refine ⟨by simp [this.1], fun hx => this.2 (by simp [hx])⟩

/-- `dfAux` returns a duplicate-free list. -/
theorem dfAux_nodup (l : List Ln) : ∀ seen : List Ln, (dfAux seen l).Nodup := by
  induction l with
  | nil => intro _; simp [dfAux]
  | cons n t ih =>
    intro seen
    by_cases hn : n ∈ seen
    · simp only [dfAux, if_pos hn]; exact ih seen
    · simp only [dfAux, if_neg hn]
      refine List.nodup_cons.mpr ⟨fun hx => ?_, ih (n :: seen)⟩
      exact (dfAux_mem t (n :: seen) n hx).2 (by simp)

/-- The length of `dfAux seen l` counts the distinct elements of `l`
outside `seen`. -/
theorem dfAux_length (l : List Ln) :
    ∀ seen : List Ln, (dfAux seen l).length = (l.toFinset \ seen.toFinset).card := by
  induction l with
  | nil => intro seen; simp [dfAux]
  | cons n t ih =>
    intro seen
    by_cases hn : n ∈ seen
    · rw [show (dfAux seen (n :: t)) = dfAux seen t from by simp [dfAux, hn], ih seen]
      rw [List.toFinset_cons, Finset.insert_sdiff_of_mem _ (List.mem_toFinset.mpr hn)]
    · rw [show (dfAux seen (n :: t)) = n :: dfAux (n :: seen) t from by simp [dfAux, hn],
        List.length_cons, ih (n :: seen)]
      rw [List.toFinset_cons, List.toFinset_cons,
        Finset.insert_sdiff_of_not_mem _ (fun hx => hn (List.mem_toFinset.mp hx)),
        Finset.sdiff_insert]
      by_cases hm : n ∈ t.toFinset \ seen.toFinset
      · rw [Finset.card_insert_of_mem hm, Finset.card_erase_of_mem hm]
        have : 0 < (t.toFinset \ seen.toFinset).card := Finset.card_pos.mpr ⟨n, hm⟩
        omega
      · rw [Finset.erase_eq_of_not_mem hm, Finset.card_insert_of_not_mem hm]

/-- `process` succeeds exactly when the entry's file name derives, and then
performs the dictionary write. -/
theorem processEntry_ok_iff (p : Proc) (st : St) (e : Ln) (st1 : St) :
    processEntry p st e = Except.ok st1 ↔
      ∃ n, entryName p e = some n ∧ st1 = writeTo p.header st n e := by
  rcases hci : p.colIdx with _ | i
  · simp [processEntry, entryName, entryKey, hci]
  · rcases hg : pyGet (p.parse e) i with _ | field
    · simp [processEntry, entryName, entryKey, hci, hg]
    · rcases hf : outputFileName p.pfx (deriveKey p.dateSplit field) with _ | name
      · simp [processEntry, entryName, entryKey, hci, hg, hf]
      · simp [processEntry, entryName, entryKey, hci, hg, hf, eq_comm]

/-- A dictionary write preserves distinctness of the key list. -/
theorem writeTo_nodup (h : Option Ln) (st : St) (n e : Ln)
    (hnd : (st.map Prod.fst).Nodup) : ((writeTo h st n e).map Prod.fst).Nodup := by
  unfold writeTo
  rcases hg : assocGet st n with _ | c
  · have := (assocGet_eq_none_iff st n).mp hg
    simp [List.nodup_append, hnd, this]
  · simpa [appendTo_keys] using hnd

/-- Filtering the rows routed to file `f` out of `e :: es` when `e` is
routed to `n`. -/
theorem filter_entry_cons (p : Proc) (e : Ln) (es : List Ln) (n f : Ln)
    (hn : entryName p e = some n) :
    List.filter (fun x => entryName p x == some f) (e :: es) =
      if n = f then e :: List.filter (fun x => entryName p x == some f) es
      else List.filter (fun x => entryName p x == some f) es := by
  simp only [List.filter_cons, hn]
  by_cases hf : n = f
  · subst hf; simp
  · simp [hf]

/-- Appending the entry to the file it is routed to accounts for one more
row of the final filter description. -/
theorem appendTo_map_filter (p : Proc) (e n : Ln) (es : List Ln)
    (hn : entryName p e = some n) :
    ∀ st0 : St, (st0.map Prod.fst).Nodup →
      (appendTo st0 n e).map
          (fun fc => (fc.1, fc.2 ++ es.filter (fun x => entryName p x == some fc.1))) =
        st0.map
          (fun fc => (fc.1, fc.2 ++ (e :: es).filter (fun x => entryName p x == some fc.1))) := by
  intro st0
  induction st0 with
  | nil => intro _; rfl
  | cons fc t ih =>
    intro hnd
    obtain ⟨f, c⟩ := fc
    have hnd' : (t.map Prod.fst).Nodup := (List.nodup_cons.mp (by simpa using hnd)).2
    have hfnot : f ∉ t.map Prod.fst := (List.nodup_cons.mp (by simpa using hnd)).1
    by_cases hf : f = n
    · subst hf
      simp only [appendTo, if_pos rfl, if_true, eq_self_iff_true, List.map_cons]
      have htail :
          List.map (fun fc =>
            (fc.1, fc.2 ++ List.filter (fun x => entryName p x == some fc.1) es)) t =
          List.map (fun fc =>
            (fc.1, fc.2 ++ List.filter (fun x => entryName p x == some fc.1) (e :: es))) t := by
        apply List.map_congr_left
        intro fc' hm
        have hne : fc'.1 ≠ f := fun hx => hfnot (hx ▸ List.mem_map_of_mem Prod.fst hm)
        rw [filter_entry_cons p e es f fc'.1 hn, if_neg (fun hx => hne hx.symm)]
      rw [htail, filter_entry_cons p e es f f hn, if_pos rfl]
      simp [List.append_assoc]
    · simp only [appendTo, if_neg hf, List.map_cons]
      rw [filter_entry_cons p e es n f hn, if_neg (fun hx => hf hx.symm)]
      exact congrArg _ (ih hnd')

/-- One step of the dictionary against the run specification. -/
theorem specMerge_step (p : Proc) (st0 : St) (e : Ln) (es : List Ln) (n : Ln)
    (hn : entryName p e = some n) (hnd : (st0.map Prod.fst).Nodup) :
    specMerge p (writeTo p.header st0 n e) es = specMerge p st0 (e :: es) := by
  have hfm : (e :: es).filterMap (entryName p) = n :: es.filterMap (entryName p) := by
    simp [List.filterMap_cons, hn]
  rcases hg : assocGet st0 n with _ | c0
  · have hmem : n ∉ st0.map Prod.fst := (assocGet_eq_none_iff st0 n).mp hg
    simp only [writeTo, hg, specMerge, hfm]
    rw [show ((st0 ++ [(n, hdrList p.header ++ [e])]).map Prod.fst) =
        st0.map Prod.fst ++ [n] from by simp]
    rw [show dfAux (st0.map Prod.fst) (n :: es.filterMap (entryName p)) =
        n :: dfAux (n :: st0.map Prod.fst) (es.filterMap (entryName p)) from by
      simp [dfAux, hmem]]
    rw [dfAux_congr (es.filterMap (entryName p)) (st0.map Prod.fst ++ [n])
      (n :: st0.map Prod.fst) (fun x => by simp [or_comm])]
    rw [List.map_append]
    rw [List.append_assoc]
    refine congrArg₂ _ ?_ ?_
    · apply List.map_congr_left
      intro fc' hm
      have hne : fc'.1 ≠ n := fun hx => hmem (hx ▸ List.mem_map_of_mem Prod.fst hm)
      rw [filter_entry_cons p e es n fc'.1 hn, if_neg (fun hx => hne hx.symm)]
    · simp only [List.map_cons, List.map_nil, List.singleton_append]
      have htail :
          List.map (fun f =>
            (f, hdrList p.header ++ List.filter (fun x => entryName p x == some f) es))
            (dfAux (n :: st0.map Prod.fst) (es.filterMap (entryName p))) =
          List.map (fun f =>
            (f, hdrList p.header ++ List.filter (fun x => entryName p x == some f) (e :: es)))
            (dfAux (n :: st0.map Prod.fst) (es.filterMap (entryName p))) := by
        apply List.map_congr_left
        intro f hm
        have hne : f ≠ n := fun hx => (dfAux_mem _ _ f hm).2 (by simp [hx])
        rw [filter_entry_cons p e es n f hn, if_neg (fun hx => hne hx.symm)]
      rw [htail, filter_entry_cons p e es n n hn, if_pos rfl]
      simp [List.append_assoc]
  · have hmem : n ∈ st0.map Prod.fst := by
      by_contra hx
      rw [← assocGet_eq_none_iff] at hx
      rw [hx] at hg
      cases hg
    simp only [writeTo, hg, specMerge, hfm, appendTo_keys]
    rw [show dfAux (st0.map Prod.fst) (n :: es.filterMap (entryName p)) =
        dfAux (st0.map Prod.fst) (es.filterMap (entryName p)) from by
      simp [dfAux, hmem]]
    refine congrArg₂ _ (appendTo_map_filter p e n es hn st0 hnd) ?_
    apply List.map_congr_left
    intro f hm
    have hne : f ≠ n := fun hx => (dfAux_mem _ _ f hm).2 (hx ▸ hmem)
    rw [filter_entry_cons p e es n f hn, if_neg (fun hx => hne hx.symm)]

/-- The run specification on an empty entry list is the initial state. -/
theorem specMerge_nil (p : Proc) (st0 : St) : specMerge p st0 [] = st0 := by
  simp [specMerge, dfAux]

/-- The main invariant: a successful run from a distinct-key dictionary
produces exactly the specified merge, and every processed entry had a
derivable file name. -/
theorem runEntries_spec (p : Proc) :
    ∀ (es : List Ln) (st0 st : St), (st0.map Prod.fst).Nodup →
      runEntries p es st0 = (st, none) →
      st = specMerge p st0 es ∧ ∀ e ∈ es, (entryName p e).isSome := by
  intro es
  induction es with
  | nil =>
    intro st0 st hnd h
    simp only [runEntries, Prod.mk.injEq] at h
    simp [← h.1, specMerge_nil]
  | cons e es ih =>
    intro st0 st hnd h
    simp only [runEntries] at h
    cases hpe : processEntry p st0 e with
    | error err => rw [hpe] at h; simp at h
    | ok st1 =>
      rw [hpe] at h
      obtain ⟨n, hn, hst1⟩ := (processEntry_ok_iff p st0 e st1).mp hpe
      have hnd1 : (st1.map Prod.fst).Nodup := hst1 ▸ writeTo_nodup p.header st0 n e hnd
      obtain ⟨hspec, hsome⟩ := ih st1 st hnd1 h
      constructor
      · rw [hspec, hst1, specMerge_step p st0 e es n hn hnd]
      · intro x hx
        rcases List.mem_cons.mp hx with rfl | hx
        · simp [hn]
        · exact hsome x hx

/-- When every entry's file name derives, the name stream is the key
stream pushed through the (defined) file-name function. -/
theorem names_eq_keys_map (p : Proc) :
    ∀ es : List Ln, (∀ e ∈ es, (entryName p e).isSome) →
      es.filterMap (entryName p) =
        (es.filterMap (entryKey p)).map (fun k => (outputFileName p.pfx k).getD []) ∧
      ∀ k ∈ es.filterMap (entryKey p), (outputFileName p.pfx k).isSome := by
  intro es
  induction es with
  | nil => intro _; simp
  | cons e es ih =>
    intro hs
    have he := hs e (by simp)
    rcases hk : entryKey p e with _ | k
    · rw [entryName, hk] at he; simp at he
    · rcases hnm : outputFileName p.pfx k with _ | n
      · rw [entryName, hk] at he; simp [hnm] at he
      · obtain ⟨h1, h2⟩ := ih (fun x hx => hs x (by simp [hx]))
        constructor
        · simp [List.filterMap_cons, hk, entryName, hnm, h1]
        · intro k' hk'
          simp only [List.filterMap_cons, hk] at hk'
          rcases List.mem_cons.mp hk' with rfl | hx
          · simp [hnm]
          · exact h2 k' hx

/-- `toFinset` of a mapped list is the image of the `toFinset`. -/
theorem list_toFinset_map (l : List Ln) (f : Ln → Ln) :
    (l.map f).toFinset = l.toFinset.image f := by
  ext a
  simp [List.mem_toFinset, Finset.mem_image, List.mem_map]

/-- Concrete processor and entries for the partition-correctness witness. -/
def pW : Proc := ⟨parseComma, strL "out_", some (strL "d,v\n"), some 0, true⟩

/-- Witness entry list: two July rows around an August row. -/
def esW : List Ln := [strL "2021-07-15,a\n", strL "2021-08-01,b\n", strL "2021-07-20,c\n"]

/-- The final dictionary of the witness run. -/
def stW : St :=
  [(strL "out_2021-07.csv", [strL "d,v\n", strL "2021-07-15,a\n", strL "2021-07-20,c\n"]),
   (strL "out_2021-08.csv", [strL "d,v\n", strL "2021-08-01,b\n"])]

/-- Claim C1: for a run that completes successfully, the dictionary of
output files is exactly `specMerge p [] es`: one file per name in order of
first appearance, each holding the header (if any) followed by precisely
the entries routed to that name, in original relative order — so every
data row lands in exactly one file and no foreign row appears; moreover
the number of output files equals the cardinality of the set of derived
partition keys. -/
theorem c1_partition (p : Proc) (es : List Ln) (st : St)
    (hrun : runEntries p es [] = (st, none)) :
    st = specMerge p [] es ∧
      (st.map Prod.fst).length = (es.filterMap (entryKey p)).toFinset.card := by
  obtain ⟨hspec, hsome⟩ := runEntries_spec p es [] st (by simp) hrun
  obtain ⟨hmapeq, hdef⟩ := names_eq_keys_map p es hsome
  refine ⟨hspec, ?_⟩
  have hkeys : st.map Prod.fst = dfAux [] (es.filterMap (entryName p)) := by
    rw [hspec]
    simp only [specMerge, List.map_nil, List.nil_append, List.map_map]
    have hcomp : (Prod.fst ∘ fun f : Ln =>
        (f, hdrList p.header ++ List.filter (fun e => entryName p e == some f) es)) =
          id := rfl
    rw [hcomp, List.map_id]
  rw [hkeys, dfAux_length (es.filterMap (entryName p)) [], hmapeq, list_toFinset_map]
  simp only [List.toFinset_nil, Finset.sdiff_empty]
  apply Finset.card_image_of_injOn
  intro a ha b hb hab
  have ha' : a ∈ es.filterMap (entryKey p) := by simpa using ha
  have hb' : b ∈ es.filterMap (entryKey p) := by simpa using hb
  obtain ⟨ra, hra⟩ := Option.isSome_iff_exists.mp (hdef a ha')
  obtain ⟨rb, hrb⟩ := Option.isSome_iff_exists.mp (hdef b hb')
  have hr : ra = rb := by simpa [hra, hrb] using hab
  exact outputFileName_inj p.pfx a b ra hra (by rw [hr]; exact hrb)

/-- Witness for C1 at a concrete successful run with three rows, two
distinct derived keys and a header. -/
theorem c1_partition_witness :
    stW = specMerge pW [] esW ∧
      (stW.map Prod.fst).length = (esW.filterMap (entryKey pW)).toFinset.card :=
  c1_partition pW esW stW (by decide)

/-- Claim C2 (amended): with date bucketing enabled the derived key is
exactly what the amended spec describes — a field starting with four
digits, dash, a two-digit month of value at most 12 (so `00` is accepted),
dash, a two-digit day of value at most 31 (so `00` is accepted) is reduced
to `year-month`; any other field is used verbatim.  In particular
`2021-07-15` derives `2021-07` and `2021-13-01` is used verbatim. -/
theorem c2_date_bucket (cs : Ln) :
    deriveKey true cs = isoSpecKey cs ∧
      deriveKey true (strL "2021-07-15") = strL "2021-07" ∧
      deriveKey true (strL "2021-13-01") = strL "2021-13-01" := by
  refine ⟨?_, by decide, by decide⟩
  rcases cs with _ | ⟨y1, _ | ⟨y2, _ | ⟨y3, _ | ⟨y4, _ | ⟨s1, _ | ⟨m1, _ | ⟨m2, _ | ⟨s2, _ | ⟨d1, _ | ⟨d2, rest⟩⟩⟩⟩⟩⟩⟩⟩⟩⟩ <;>
    first
      | rfl
      | (simp only [deriveKey, isoKeyOf, isoSpecKey, if_true, monthShape_eq, dayShape_eq]
         cases hc : (s1 == '-' && s2 == '-' && isDig y1 && isDig y2 && isDig y3 &&
            isDig y4 && monthLe12 m1 m2 && dayLe31 d1 d2) <;> simp [hc])

/-- Counterexample to claim C2 as stated: the claim says a month of `00`
does not match and the field is then used verbatim, but the regex month
alternative `0\d` accepts `00`, so `2021-00-15` is bucketed to
`2021-00`. -/
theorem c2_cex :
    deriveKey true (strL "2021-00-15") ≠ strL "2021-00-15" ∧
      deriveKey true (strL "2021-00-15") = strL "2021-00" := by decide

/-- Claim C3 at its failing input: with a header present and the OS
failing the header write to a newly opened partition file (I/O call 1),
the run stops with the `IOError`, but the opened file `px.csv` was never
stored in `self._out_files`, so `__exit__` — which closes exactly the
stored handles — never closes it: a file opened by the run is not closed
on this exit path. -/
theorem c3_leak :
    (runEff orcSnd procH [strL "x,1\n"] ⟨0, []⟩).2 = some PyErr.ioError ∧
      openNames (runEff orcSnd procH [strL "x,1\n"] ⟨0, []⟩).1 = [strL "px.csv"] ∧
      regNames (runEff orcSnd procH [strL "x,1\n"] ⟨0, []⟩).1 = [] := by decide

/-- Claim C4 at its failing input: when no header is detected, `__init__`
skips the whole resolution block, so `self._column_index` is never
assigned — even for the perfectly valid numeric specifier `"0"` — and the
first `process` call dies with `AttributeError` instead of using index 0;
no row is ever processed. -/
theorem c4_no_header :
    resolveColumn parseComma none (strL "0") = InitResult.ok none ∧
      (∀ (parse : Ln → List Ln) (pfx : Ln) (ds : Bool) (st : St) (e : Ln),
        processEntry ⟨parse, pfx, none, none, ds⟩ st e =
          Except.error PyErr.attributeError) ∧
      runSplit parseComma (strL "p") false [strL "x,y\n"] (strL "0") true =
        RunOutcome.ran [] (some PyErr.attributeError) :=
  ⟨rfl, fun _ _ _ _ _ => rfl, by decide⟩

/-- Claim C5 at its failing input: `argparse` converts the value of
`--date-split` with `bool()`, and `bool("false")` is `True`, so the run
invoked with `--date-split false` still buckets `2021-07-15` to `2021-07`
instead of using it verbatim.  The default (flag absent) is enabled, and a
processor whose flag really is false derives every key verbatim. -/
theorem c5_date_split_flag :
    argDateSplit (some (strL "false")) = true ∧
      deriveKey (argDateSplit (some (strL "false"))) (strL "2021-07-15") =
        strL "2021-07" ∧
      argDateSplit none = true ∧
      ∀ f : Ln, deriveKey false f = f :=
  ⟨by decide, by decide, rfl, fun _ => rfl⟩

/-- Claim C6 (amended): a column specifier matching no header field and
not parseable by `int()` makes the run fail with the configuration error
carrying that specifier, before any output file is created and before any
row is processed (note `int()` also accepts negative integers such as
`-1`, which therefore do not trigger this error). -/
theorem c6_config_error (parse : Ln → List Ln) (pfx h : Ln) (rest : List Ln)
    (cid : Ln) (ds : Bool)
    (h1 : listIndexOf (parse h) cid = none) (h2 : pyInt cid = none) :
    runSplit parse pfx true (h :: rest) cid ds = RunOutcome.configError cid := by
  simp [runSplit, headerData, resolveColumn, h1, h2]

/-- Witness for C6 with the unmatched specifier `nosuch`. -/
theorem c6_config_error_witness :
    runSplit parseComma (strL "p") true [strL "a,b\n", strL "x,y\n"] (strL "nosuch")
        true = RunOutcome.configError (strL "nosuch") :=
  c6_config_error parseComma (strL "p") (strL "a,b\n") [strL "x,y\n"] (strL "nosuch")
    true (by decide) (by decide)

/-- Counterexample to claim C6 as stated: `-1` matches no header field and
is not a valid non-negative integer, yet the run does not fail — `int("-1")`
succeeds, the index selects the last column Python-style, and an output
file is created. -/
theorem c6_cex :
    runSplit parseComma (strL "p") true [strL "a,b\n", strL "x,y\n"] (strL "-1")
        false = RunOutcome.ran [(strL "py.csv", [strL "a,b\n", strL "x,y\n"])] none := by
  decide

/-- Claim C7 (amended): on a successful run with a header, every output
file's content is the header followed by exactly the data rows routed to
that file — the manager writes the header exactly once, at file creation,
before any data row (a data row textually equal to the header line can
still duplicate its text, see the counterexample). -/
theorem c7_header_first (p : Proc) (es : List Ln) (st : St) (h f : Ln)
    (content : List Ln) (hrun : runEntries p es [] = (st, none))
    (hh : p.header = some h) (hf : (f, content) ∈ st) :
    content.head? = some h ∧
      content.tail = es.filter (fun e => entryName p e == some f) := by
  obtain ⟨hspec, _⟩ := runEntries_spec p es [] st (by simp) hrun
  subst hspec
  simp only [specMerge, List.map_nil, List.nil_append] at hf
  obtain ⟨f1, hf1, heq⟩ := List.mem_map.mp hf
  obtain ⟨e1, e2⟩ := Prod.mk.injEq .. ▸ heq
  subst e1
  rw [← e2, hh]
  simp [hdrList]

/-- Witness for C7 at a concrete run: file `pa.csv` starts with the header
and its tail is the filtered row list. -/
theorem c7_header_first_witness :
    ([strL "a,b\n", strL "a,b\n"] : List Ln).head? = some (strL "a,b\n") ∧
      ([strL "a,b\n", strL "a,b\n"] : List Ln).tail =
        ([strL "x,1\n", strL "a,b\n"] : List Ln).filter
          (fun e => entryName procH e == some (strL "pa.csv")) :=
  c7_header_first procH [strL "x,1\n", strL "a,b\n"]
    [(strL "px.csv", [strL "a,b\n", strL "x,1\n"]),
     (strL "pa.csv", [strL "a,b\n", strL "a,b\n"])]
    (strL "a,b\n") (strL "pa.csv") [strL "a,b\n", strL "a,b\n"]
    (by decide) rfl (by decide)

/-- Counterexample to claim C7 as stated: the claim says an output file
never contains a second occurrence of the header, but a data row equal to
the header line is routed and written verbatim, so the file for key `a`
contains the header text twice. -/
theorem c7_cex :
    ((assocGet (runEntries procH [strL "x,1\n", strL "a,b\n"] []).1
        (strL "pa.csv")).getD []).count (strL "a,b\n") = 2 := by decide

/-- Claim C8: the first physical line is never lost — when the sniffer
reports a header it is stored separately and the data stream is exactly
the remaining lines (the first line is not a data row); otherwise the seek
to position 0 makes the stream re-emit the first line as the first data
row, so header-plus-data always reconstructs the original lines. -/
theorem c8_first_line (hasHeader : Bool) (first : Ln) (rest : List Ln) :
    (headerData hasHeader (first :: rest) =
      if hasHeader then (some first, rest) else (none, first :: rest)) ∧
      ((match (headerData hasHeader (first :: rest)).1 with
        | some h => h :: (headerData hasHeader (first :: rest)).2
        | none => (headerData hasHeader (first :: rest)).2) = first :: rest) := by
  cases hasHeader <;> simp [headerData]

/-- Claim C9 (amended): for every prefix free of brace characters the
output file name is exactly `prefix ++ key ++ ".csv"`, and for a fixed
such prefix the naming is injective in the key (a prefix containing braces
is instead reinterpreted by the format engine, see the counterexample). -/
theorem c9_filename (pfx k1 k2 : Ln) (hb : ∀ c ∈ pfx, c ≠ '{' ∧ c ≠ '}') :
    outputFileName pfx k1 = some (pfx ++ k1 ++ ('.' :: 'c' :: 's' :: 'v' :: [])) ∧
      (outputFileName pfx k1 = outputFileName pfx k2 → k1 = k2) := by
  refine ⟨outputFileName_noBrace pfx k1 hb, fun h => ?_⟩
  exact outputFileName_inj pfx k1 k2 (pfx ++ k1 ++ ('.' :: 'c' :: 's' :: 'v' :: []))
    (outputFileName_noBrace pfx k1 hb)
    (by rw [← h]; exact outputFileName_noBrace pfx k1 hb)

/-- Witness for C9 at the prefix `out_` and keys `a`, `b`. -/
theorem c9_filename_witness :
    outputFileName (strL "out_") (strL "a") =
        some (strL "out_" ++ strL "a" ++ ('.' :: 'c' :: 's' :: 'v' :: [])) ∧
      (outputFileName (strL "out_") (strL "a") =
          outputFileName (strL "out_") (strL "b") → strL "a" = strL "b") :=
  c9_filename (strL "out_") (strL "a") (strL "b") (by decide)

/-- Counterexample to claim C9 as stated: for the prefix consisting of two
opening braces the file name is not `prefix ++ key ++ ".csv"` — the
template pass turns the doubled brace into a single literal brace. -/
theorem c9_cex :
    outputFileName ('{' :: '{' :: []) (strL "a") =
        some ('{' :: 'a' :: '.' :: 'c' :: 's' :: 'v' :: []) ∧
      ('{' :: 'a' :: '.' :: 'c' :: 's' :: 'v' :: []) ≠
        ('{' :: '{' :: []) ++ strL "a" ++ strL ".csv" := by decide

/-- Claim C10: when `open` raises for a fresh partition, the `finally`
clause still runs `out_file.write(entry)` with `out_file` unbound, so the
error that propagates is the unbound-local error rather than the original
I/O error, and the open-file dictionary (indeed the whole handle state) is
unchanged. -/
theorem c10_unbound_local (orc : Nat → Bool) (p : Proc) (st : EffState) (e : Ln)
    (i : Int) (field name : Ln)
    (h1 : p.colIdx = some i) (h2 : pyGet (p.parse e) i = some field)
    (h3 : outputFileName p.pfx (deriveKey p.dateSplit field) = some name)
    (h4 : name ∉ regNames st) (h5 : orc st.ops = false) :
    processEff orc p st e =
      ({ st with ops := st.ops + 1 }, some PyErr.unboundLocalError) := by
  simp [processEff, h1, h2, h3, h4, h5]

/-- Witness for C10: first open fails, the dictionary stays empty and the
propagated error is the unbound-local error. -/
theorem c10_unbound_local_witness :
    processEff orcNever procH ⟨0, []⟩ (strL "x,1\n") =
      (⟨1, []⟩, some PyErr.unboundLocalError) :=
  c10_unbound_local orcNever procH ⟨0, []⟩ (strL "x,1\n") 0 (strL "x")
    (strL "px.csv") rfl (by decide) (by decide) (by decide) rfl
